import Mathlib

/-!
Verification of the solid-flow graph/geometry engine.

Shallow embedding of src/graph/utils.ts and the gesture handlers of
src/components/index.tsx.  JavaScript objects used as string-keyed maps are
embedded as association lists in insertion order (JS object property order);
property lookup is first-match lookup, property assignment updates in place or
appends.  JS numbers that hold coordinates are embedded as Int; port counts and
indices as Nat.  The external dagre layout call is an opaque parameter
returning an optional position per node id; an absent value models an
undefined JS lookup.  Handlers that can throw on an out-of-range array access
return Option, with none modelling the thrown TypeError.  console.warn calls
are modelled by an explicit list of warned edge ids.
-/

/-- A 2D point, as in graph/types.ts. -/
structure Position where
  x : Int
  y : Int
  deriving DecidableEq, Repr

/-- Endpoint pair of an edge segment (the Vector type of graph/types.ts). -/
structure Vector where
  x0 : Int
  y0 : Int
  x1 : Int
  y1 : Int
  deriving DecidableEq, Repr

/-- Endpoint references stored per edge id in the EdgesNodes map. -/
structure EdgeEnds where
  outNodeId : String
  outputIndex : Nat
  inNodeId : String
  inputIndex : Nat
  deriving DecidableEq, Repr

/-- Derived per-node record (NodeData of graph/types.ts); the visual payload
is opaque and embedded as a Nat tag. -/
structure NodeData where
  id : String
  data : Nat
  inputs : Nat
  outputs : Nat
  color : String
  edgesIn : List String
  edgesOut : List String
  deriving DecidableEq, Repr

/-- Host-supplied node (NodeProps of components/index.tsx, plus the optional
color accepted by convertToLayeredGraph); payload is an opaque Nat tag. -/
structure NodeProps where
  id : String
  position : Position
  data : Nat
  inputs : Nat
  outputs : Nat
  color : Option String
  deriving DecidableEq, Repr

/-- Host-supplied edge (EdgeProps of components/index.tsx). -/
structure EdgeProps where
  id : String
  sourceNode : String
  targetNode : String
  sourceOutput : Nat
  targetInput : Nat
  deriving DecidableEq, Repr

/-- A JS object used as a string-keyed map, in property insertion order. -/
abbrev StrMap (α : Type) := List (String × α)

/-- JS property read m[k]: first entry with key k, if any. -/
def getKey (m : StrMap α) (k : String) : Option α :=
  (m.find? (fun p => p.1 == k)).map (fun p => p.2)

/-- JS property write m[k] = v: update in place when the key exists,
append otherwise (JS objects keep first-insertion order on update). -/
def setKey (m : StrMap α) (k : String) (v : α) : StrMap α :=
  if m.any (fun p => p.1 == k) then
    m.map (fun p => if p.1 == k then (k, v) else p)
  else m ++ [(k, v)]

/-- JS Object.keys: keys in property order. -/
def mapKeys (m : StrMap α) : List String := m.map (fun p => p.1)

/-- Decimal digits of n, most significant first, produced with explicit fuel
(the recursion divides by ten).  Models the JS number-to-string conversion
performed by a template literal. -/
def toDecimalAux : Nat → Nat → List Char
  | 0, _ => []
  | fuel + 1, n =>
      if n = 0 then []
      else toDecimalAux fuel (n / 10) ++ [Nat.digitChar (n % 10)]

/-- Decimal character representation of a Nat, as a JS template literal
renders a nonnegative integer. -/
def natDecimalChars (n : Nat) : List Char :=
  if n = 0 then ['0'] else toDecimalAux (n + 1) n

/-- Decimal string of a Nat. -/
def natDecimalStr (n : Nat) : String := String.mk (natDecimalChars n)

/-- getEdgeId of graph/utils.ts: the canonical edge identifier
edge_sourceId:outputIndex_targetId:inputIndex built by string interpolation. -/
def getEdgeId (nodeOutId : String) (outputIndex : Nat) (nodeInId : String)
    (inputIndex : Nat) : String :=
  "edge_" ++ nodeOutId ++ ":" ++ natDecimalStr outputIndex ++ "_" ++
    nodeInId ++ ":" ++ natDecimalStr inputIndex

/-- One entry of a node's port-offset table (the source wraps each point in
an object with a single offset field). -/
structure OffsetEntry where
  offset : Position
  deriving DecidableEq, Repr

/-- Per-node offsets of the input and output ports. -/
structure NodeOffsets where
  inputs : List OffsetEntry
  outputs : List OffsetEntry
  deriving DecidableEq, Repr

/-- The full return value of convertToLayeredGraph, plus the list of edge ids
for which a console.warn was emitted. -/
structure Snapshot where
  initNodesPositions : List (Option Position)
  initNodesData : List NodeData
  initNodesOffsets : List NodeOffsets
  initEdgesNodes : StrMap EdgeEnds
  initEdgesPositions : StrMap Vector
  initEdgesActives : StrMap Bool
  warnings : List String
  deriving DecidableEq, Repr

/-- One step of the initEdgesPositions reduce of convertToLayeredGraph: an
edge whose two endpoint nodes are found gets its endpoint segment recorded;
otherwise the entry is omitted and a warning is recorded for the edge id. -/
def edgePositionsStep (initialNodes : List NodeProps)
    (acc : StrMap Vector × List String) (edge : EdgeProps) :
    StrMap Vector × List String :=
  match initialNodes.find? (fun node => node.id == edge.sourceNode),
      initialNodes.find? (fun node => node.id == edge.targetNode) with
  | some sourceNode, some targetNode =>
      (setKey acc.1 edge.id
        { x0 := sourceNode.position.x + 200
          y0 := sourceNode.position.y - 10
          x1 := targetNode.position.x
          y1 := targetNode.position.y - 10 }, acc.2)
  | _, _ => (acc.1, acc.2 ++ [edge.id])

/-- convertToLayeredGraph of graph/utils.ts.  The dagre layout is the opaque
layout argument: the position dagre assigns to a node id, or none when the
layout yields no position for it (an undefined JS lookup). -/
def convertToLayeredGraph (layout : String → Option Position)
    (initialNodes : List NodeProps) (initialEdges : List EdgeProps) : Snapshot :=
  let initNodesPositions := initialNodes.map (fun node => layout node.id)
  let initNodesData : List NodeData := initialNodes.map (fun node =>
    { id := node.id
      data := node.data
      inputs := node.inputs
      outputs := node.outputs
      color := node.color.getD "white"
      edgesIn := (initialEdges.filter
        (fun edge => edge.targetNode == node.id)).map (fun edge => edge.id)
      edgesOut := (initialEdges.filter
        (fun edge => edge.sourceNode == node.id)).map (fun edge => edge.id) })
  let initNodesOffsets : List NodeOffsets := initialNodes.map (fun node =>
    { inputs := (List.range node.inputs).map (fun index =>
        { offset :=
            { x := node.position.x
              y := node.position.y +
                ((index : Int) + 1) * 20 - ((node.inputs : Int) + 1) * 10 } })
      outputs := (List.range node.outputs).map (fun index =>
        { offset :=
            { x := node.position.x + 200
              y := node.position.y +
                ((index : Int) + 1) * 20 - ((node.outputs : Int) + 1) * 10 } }) })
  let initEdgesNodes : StrMap EdgeEnds := initialEdges.foldl (fun acc edge =>
    setKey acc edge.id
      { outNodeId := edge.sourceNode
        outputIndex := edge.sourceOutput
        inNodeId := edge.targetNode
        inputIndex := edge.targetInput }) []
  let posWarn := initialEdges.foldl (edgePositionsStep initialNodes) ([], [])
  let initEdgesActives : StrMap Bool := initialEdges.foldl (fun acc edge =>
    setKey acc edge.id false) []
  { initNodesPositions := initNodesPositions
    initNodesData := initNodesData
    initNodesOffsets := initNodesOffsets
    initEdgesNodes := initEdgesNodes
    initEdgesPositions := posWarn.1
    initEdgesActives := initEdgesActives
    warnings := posWarn.2 }

/-- The transient pending edge (the newEdge signal value while drawing). -/
structure PendingEdge where
  position : Vector
  sourceNode : Nat
  sourceOutput : Nat
  deriving DecidableEq, Repr

/-- The live state owned by the FlowChart component: the six signal/store
values plus the drag delta and the pending edge.  nodesPositions entries are
optional because an entry is whatever the layout produced, possibly an
undefined JS value. -/
structure State where
  edgesNodes : StrMap EdgeEnds
  edgesPositions : StrMap Vector
  edgesActives : StrMap Bool
  nodesPositions : List (Option Position)
  nodesData : List NodeData
  nodesOffsets : List NodeOffsets
  clickedDelta : Position
  newEdge : Option PendingEdge
  deriving DecidableEq, Repr

/-- A call the engine makes back into the host. -/
inductive HostCall where
  | edgesChange (edges : List EdgeProps)
  | nodesChange (nodes : List NodeProps)
  deriving DecidableEq, Repr

/-- Replace the element at an index, leaving the list unchanged when the
index is out of range (used only where the index was already checked). -/
def updateAt (l : List α) (i : Nat) (f : α → α) : List α :=
  match l.get? i with
  | some a => l.set i (f a)
  | none => l

/-- The active-edge list built by handleOnInputMouseUp (lines 320 to 335 of
components/index.tsx): iterate the keys of the actives map, keep the truthy
ones, skip a key whose endpoint record is missing. -/
def buildActiveEdgesSkip (actives : StrMap Bool) (ends : StrMap EdgeEnds) :
    List EdgeProps :=
  (mapKeys actives).filterMap (fun k =>
    if (getKey actives k).getD false then
      match getKey ends k with
      | some info =>
          some { id := k
                 sourceNode := info.outNodeId
                 targetNode := info.inNodeId
                 sourceOutput := info.outputIndex
                 targetInput := info.inputIndex }
      | none => none
    else none)

/-- The active-edge list built by handleOnDeleteEdge (lines 387 to 400):
same loop, but a truthy key with no endpoint record crashes (none). -/
def buildActiveEdgesStrictAux (actives : StrMap Bool) (ends : StrMap EdgeEnds) :
    List String → Option (List EdgeProps)
  | [] => some []
  | k :: ks =>
      if (getKey actives k).getD false then
        match getKey ends k with
        | some info =>
            (buildActiveEdgesStrictAux actives ends ks).map (fun rest =>
              { id := k
                sourceNode := info.outNodeId
                targetNode := info.inNodeId
                sourceOutput := info.outputIndex
                targetInput := info.inputIndex } :: rest)
        | none => none
      else buildActiveEdgesStrictAux actives ends ks

/-- Active-edge list of handleOnDeleteEdge over the keys of the actives map. -/
def buildActiveEdgesStrict (actives : StrMap Bool) (ends : StrMap EdgeEnds) :
    Option (List EdgeProps) :=
  buildActiveEdgesStrictAux actives ends (mapKeys actives)

/-- handleOnInputMouseUp of components/index.tsx.  Result none models a
thrown TypeError from an out-of-range array access; otherwise the updated
state and the host callbacks made, in order.  The JSON deep copy of the
adjacency lists is the identity on values and is elided. -/
def handleOnInputMouseUp (st : State) (nodeIndex : Nat) (inputIndex : Nat) :
    Option (State × List HostCall) :=
  if (st.newEdge.map PendingEdge.sourceNode) = some nodeIndex then
    some ({ st with newEdge := none }, [])
  else do
    let srcIdx := (st.newEdge.map PendingEdge.sourceNode).getD 0
    let srcData ← st.nodesData.get? srcIdx
    let outputEdges := srcData.edgesOut
    let tgtData ← st.nodesData.get? nodeIndex
    let inputEdges := tgtData.edgesIn
    match st.newEdge with
    | none => some (st, [])
    | some ne =>
      let sourceNodeId := srcData.id
      let targetNodeId := tgtData.id
      let edgeId := getEdgeId sourceNodeId ne.sourceOutput targetNodeId inputIndex
      let haveEdge := outputEdges.contains edgeId || inputEdges.contains edgeId
      if haveEdge then
        some ({ st with newEdge := none }, [])
      else do
        let srcPos ← (st.nodesPositions.get? srcIdx).bind id
        let srcOffs ← st.nodesOffsets.get? srcIdx
        let srcOut ← srcOffs.outputs.get? ne.sourceOutput
        let tgtPos ← (st.nodesPositions.get? nodeIndex).bind id
        let tgtOffs ← st.nodesOffsets.get? nodeIndex
        let tgtIn ← tgtOffs.inputs.get? inputIndex
        let edgesPositions1 := setKey st.edgesPositions edgeId
          { x0 := srcPos.x + srcOut.offset.x
            y0 := srcPos.y + srcOut.offset.y
            x1 := tgtPos.x + tgtIn.offset.x
            y1 := tgtPos.y + tgtIn.offset.y }
        let edgesActives1 := setKey st.edgesActives edgeId true
        let newEdgeNode : EdgeEnds :=
          { outNodeId := sourceNodeId
            outputIndex := ne.sourceOutput
            inNodeId := targetNodeId
            inputIndex := inputIndex }
        let edgesNodes1 := setKey st.edgesNodes edgeId newEdgeNode
        let nodesData1 := updateAt st.nodesData srcIdx (fun d =>
          { d with edgesOut := d.edgesOut ++ [edgeId] })
        let nodesData2 := updateAt nodesData1 nodeIndex (fun d =>
          { d with edgesIn := d.edgesIn ++ [edgeId] })
        let allEdgesNodes := setKey edgesNodes1 edgeId newEdgeNode
        let activeEdges := buildActiveEdgesSkip edgesActives1 allEdgesNodes
        some ({ st with
                  edgesPositions := edgesPositions1
                  edgesActives := edgesActives1
                  edgesNodes := edgesNodes1
                  nodesData := nodesData2
                  newEdge := none },
          [HostCall.edgesChange activeEdges])

/-- handleOnDeleteEdge of components/index.tsx: drop the id from both
incident adjacency lists, mark the edge inactive, report the full active
edge list.  none models the TypeError thrown when the edge id has no
endpoint record or an endpoint node id is not found. -/
def handleOnDeleteEdge (st : State) (edgeId : String) :
    Option (State × List HostCall) := do
  let ends ← getKey st.edgesNodes edgeId
  let nodeTargetIndex ← st.nodesData.findIdx? (fun node => node.id == ends.inNodeId)
  let nodeSourceIndex ← st.nodesData.findIdx? (fun node => node.id == ends.outNodeId)
  let nodesData1 := updateAt st.nodesData nodeTargetIndex (fun d =>
    { d with edgesIn := d.edgesIn.filter (fun elem => elem != edgeId) })
  let nodesData2 := updateAt nodesData1 nodeSourceIndex (fun d =>
    { d with edgesOut := d.edgesOut.filter (fun elem => elem != edgeId) })
  let edgesActives1 := setKey st.edgesActives edgeId false
  let activeEdges ← buildActiveEdgesStrict edgesActives1 st.edgesNodes
  some ({ st with nodesData := nodesData2, edgesActives := edgesActives1 },
    [HostCall.edgesChange activeEdges])

/-- handleOnNodeDelete of components/index.tsx: purely computes the new host
lists from the props and reports edges first, then nodes. -/
def handleOnNodeDelete (propsNodes : List NodeProps) (propsEdges : List EdgeProps)
    (nodeId : String) : List HostCall :=
  let newNodes := propsNodes.filter (fun node => node.id != nodeId)
  let newEdges := propsEdges.filter (fun edge =>
    edge.sourceNode != nodeId && edge.targetNode != nodeId)
  [HostCall.edgesChange newEdges, HostCall.nodesChange newNodes]

/-- Install a freshly built snapshot into the live state (the six set calls
of the rebuild branch of the createEffect in FlowChart). -/
def stateFromSnapshot (snap : Snapshot) (st : State) : State :=
  { st with
      edgesNodes := snap.initEdgesNodes
      edgesPositions := snap.initEdgesPositions
      edgesActives := snap.initEdgesActives
      nodesPositions := snap.initNodesPositions
      nodesData := snap.initNodesData
      nodesOffsets := snap.initNodesOffsets }

/-- The reconciliation createEffect of FlowChart (lines 76 to 102): rebuild
when the node count changed or the edges collection is a different reference,
otherwise do nothing.  JS reference identity of the edges array is modelled
by a Nat token carried alongside the value: the host hands the pair
(propsEdgesRef, propsEdges) and the effect remembers the token it last
reconciled (prevEdgesRef). -/
def reconcileEffect (layout : String → Option Position)
    (propsNodes : List NodeProps) (propsEdges : List EdgeProps)
    (propsEdgesRef : Nat) (prevEdgesRef : Nat) (st : State) : State × Nat :=
  if propsNodes.length != st.nodesData.length || propsEdgesRef != prevEdgesRef then
    (stateFromSnapshot (convertToLayeredGraph layout propsNodes propsEdges) st,
      propsEdgesRef)
  else (st, prevEdgesRef)

/-! ### Association-list map lemmas -/

theorem getKey_nil (k : String) : getKey ([] : StrMap α) k = none := rfl

theorem getKey_cons (p : String × α) (m : StrMap α) (k : String) :
    getKey (p :: m) k = if p.1 = k then some p.2 else getKey m k := by
  by_cases h : p.1 = k
  · simp [getKey, List.find?_cons_of_pos, h]
  · simp [getKey, List.find?_cons_of_neg, h]

theorem getKey_append (m m' : StrMap α) (k : String) :
    getKey (m ++ m') k =
      match getKey m k with
      | some v => some v
      | none => getKey m' k := by
  induction m with
  | nil => simp [getKey_nil]
  | cons p rest ih =>
    by_cases h : p.1 = k <;> simp [getKey_cons, h, ih]

theorem getKey_eq_none_of_any_false (m : StrMap α) (k : String)
    (h : m.any (fun q => q.1 == k) = false) : getKey m k = none := by
  induction m with
  | nil => rfl
  | cons p rest ih =>
    simp only [List.any_cons, Bool.or_eq_false_iff] at h
    have hp : p.1 ≠ k := by simpa using h.1
    simp [getKey_cons, hp, ih h.2]

theorem getKey_mapUpdate_self (m : StrMap α) (k : String) (v : α)
    (h : m.any (fun q => q.1 == k) = true) :
    getKey (m.map (fun q => if q.1 == k then (k, v) else q)) k = some v := by
  induction m with
  | nil => simp at h
  | cons p rest ih =>
    by_cases hp : p.1 = k
    · simp [getKey_cons, hp]
    · have hp' : (p.1 == k) = false := by simpa using hp
      simp only [List.any_cons, hp', Bool.false_or] at h
      have ih' := ih h
      simp only [beq_iff_eq] at ih'
      simp [getKey_cons, hp', hp, ih']

theorem getKey_mapUpdate_ne (m : StrMap α) (k k' : String) (v : α)
    (hne : k' ≠ k) :
    getKey (m.map (fun q => if q.1 == k' then (k', v) else q)) k = getKey m k := by
  induction m with
  | nil => simp [getKey_nil]
  | cons p rest ih =>
    have ih' := ih
    simp only [beq_iff_eq] at ih'
    by_cases hp : p.1 = k'
    · have hpk : p.1 ≠ k := fun hh => hne (hp ▸ hh)
      simp [getKey_cons, hp, hne, hpk, ih']
    · by_cases hpk : p.1 = k <;>
        simp [getKey_cons, hp, hpk, hne, Ne.symm hne, ih']

theorem getKey_setKey_self (m : StrMap α) (k : String) (v : α) :
    getKey (setKey m k v) k = some v := by
  unfold setKey
  by_cases h : m.any (fun q => q.1 == k) = true
  · simp only [h, if_true]
    exact getKey_mapUpdate_self m k v h
  · have h' : m.any (fun q => q.1 == k) = false := by
      rwa [Bool.not_eq_true] at h
    simp only [h', Bool.false_eq_true, if_false]
    simp [getKey_append, getKey_eq_none_of_any_false m k h', getKey_cons]

theorem getKey_setKey_of_ne (m : StrMap α) (k k' : String) (v : α)
    (hne : k' ≠ k) : getKey (setKey m k' v) k = getKey m k := by
  unfold setKey
  by_cases h : m.any (fun q => q.1 == k') = true
  · simp only [h, if_true]
    exact getKey_mapUpdate_ne m k k' v hne
  · have h' : m.any (fun q => q.1 == k') = false := by
      rwa [Bool.not_eq_true] at h
    simp only [h', Bool.false_eq_true, if_false]
    rw [getKey_append]
    cases hm : getKey m k with
    | some w => rfl
    | none => simp [getKey_cons, getKey_nil, hne]

/-! ### Decimal representation lemmas -/

/-- Value of a decimal digit string, used to invert the printer. -/
def charsVal (l : List Char) : Nat :=
  l.foldl (fun acc c => acc * 10 + (c.toNat - '0'.toNat)) 0

theorem charsVal_append_singleton (l : List Char) (c : Char) :
    charsVal (l ++ [c]) = charsVal l * 10 + (c.toNat - '0'.toNat) := by
  simp [charsVal, List.foldl_append]

theorem digitChar_val (d : Nat) (h : d < 10) :
    (Nat.digitChar d).toNat - '0'.toNat = d := by
  interval_cases d <;> rfl

theorem toDecimalAux_val (fuel : Nat) :
    ∀ n : Nat, n ≤ fuel → charsVal (toDecimalAux fuel n) = n := by
  induction fuel with
  | zero =>
    intro n h
    have : n = 0 := by omega
    subst this
    rfl
  | succ fuel ih =>
    intro n h
    by_cases hn : n = 0
    · subst hn; rfl
    · rw [toDecimalAux, if_neg hn, charsVal_append_singleton,
        digitChar_val _ (Nat.mod_lt n (by omega))]
      have hdiv : n / 10 < n := Nat.div_lt_self (by omega) (by omega)
      rw [ih (n / 10) (by omega)]
      omega

theorem toDecimalAux_digits (fuel : Nat) :
    ∀ (n : Nat) (c : Char), c ∈ toDecimalAux fuel n →
      ∃ d, d < 10 ∧ c = Nat.digitChar d := by
  induction fuel with
  | zero => intro n c hc; simp [toDecimalAux] at hc
  | succ fuel ih =>
    intro n c hc
    rw [toDecimalAux] at hc
    by_cases hn : n = 0
    · simp [hn] at hc
    · rw [if_neg hn] at hc
      rcases List.mem_append.mp hc with hc | hc
      · exact ih _ _ hc
      · exact ⟨n % 10, Nat.mod_lt n (by omega), by simpa using hc⟩

theorem charsVal_natDecimalChars (n : Nat) :
    charsVal (natDecimalChars n) = n := by
  unfold natDecimalChars
  by_cases hn : n = 0
  · subst hn; rfl
  · rw [if_neg hn]
    exact toDecimalAux_val (n + 1) n (by omega)

theorem natDecimalChars_injective (m n : Nat)
    (h : natDecimalChars m = natDecimalChars n) : m = n := by
  have hm := charsVal_natDecimalChars m
  rw [h, charsVal_natDecimalChars] at hm
  omega

theorem natDecimalChars_digits (n : Nat) (c : Char)
    (hc : c ∈ natDecimalChars n) : ∃ d, d < 10 ∧ c = Nat.digitChar d := by
  unfold natDecimalChars at hc
  by_cases hn : n = 0
  · rw [if_pos hn] at hc
    exact ⟨0, by omega, by simpa using hc⟩
  · rw [if_neg hn] at hc
    exact toDecimalAux_digits _ _ _ hc

theorem natDecimalChars_no_sep (n : Nat) (c : Char)
    (hc : c ∈ natDecimalChars n) : c ≠ ':' ∧ c ≠ '_' := by
  obtain ⟨d, hd, rfl⟩ := natDecimalChars_digits n c hc
  have : ∀ e, e < 10 → Nat.digitChar e ≠ ':' ∧ Nat.digitChar e ≠ '_' := by decide
  exact this d hd

/-- Splitting a character list at a separator absent from both prefixes is
unambiguous. -/
theorem append_cons_inj {c : Char} :
    ∀ {a a' t t' : List Char}, c ∉ a → c ∉ a' →
      a ++ c :: t = a' ++ c :: t' → a = a' ∧ t = t' := by
  intro a
  induction a with
  | nil =>
    intro a' t t' _ ha' h
    cases a' with
    | nil => simpa using h
    | cons y rest' =>
      simp only [List.nil_append, List.cons_append, List.cons.injEq] at h
      exact absurd (h.1 ▸ List.mem_cons_self y rest') ha'
  | cons x rest ih =>
    intro a' t t' ha ha' h
    cases a' with
    | nil =>
      simp only [List.nil_append, List.cons_append, List.cons.injEq] at h
      exact absurd (h.1 ▸ List.mem_cons_self x rest) ha
    | cons y rest' =>
      simp only [List.cons_append, List.cons.injEq] at h
      have hx : c ∉ rest := fun hm => ha (List.mem_cons_of_mem x hm)
      have hy : c ∉ rest' := fun hm => ha' (List.mem_cons_of_mem y hm)
      obtain ⟨h1, h2⟩ := ih hx hy h.2
      exact ⟨by rw [h.1, h1], h2⟩

theorem getEdgeId_data (a : String) (i : Nat) (b : String) (j : Nat) :
    (getEdgeId a i b j).data =
      'e' :: 'd' :: 'g' :: 'e' :: '_' :: (a.data ++ ':' ::
        (natDecimalChars i ++ '_' :: (b.data ++ ':' :: natDecimalChars j))) := by
  have h1 : ("edge_" : String).data = ['e', 'd', 'g', 'e', '_'] := rfl
  have h2 : (":" : String).data = [':'] := rfl
  have h3 : ("_" : String).data = ['_'] := rfl
  have h4 : ∀ n : Nat, (natDecimalStr n).data = natDecimalChars n := fun _ => rfl
  simp [getEdgeId, String.data_append, h1, h2, h3, h4]

/-- C6: getEdgeId is deterministic (equal argument tuples give equal ids, the
right-to-left direction), and injective provided the node ids contain no
colon character; two tuples differing in any component then yield
different ids. -/
theorem getEdgeId_deterministic_and_injective (a b a' b' : String) (i j i' j' : Nat)
    (ha : ':' ∉ a.data) (ha' : ':' ∉ a'.data)
    (hb : ':' ∉ b.data) (hb' : ':' ∉ b'.data) :
    getEdgeId a i b j = getEdgeId a' i' b' j' ↔
      (a = a' ∧ i = i' ∧ b = b' ∧ j = j') := by
  constructor
  · intro h
    have hd := congrArg String.data h
    rw [getEdgeId_data, getEdgeId_data] at hd
    simp only [List.cons.injEq, true_and] at hd
    obtain ⟨hA, hd⟩ := append_cons_inj ha ha' hd
    have hiu : '_' ∉ natDecimalChars i :=
      fun hm => (natDecimalChars_no_sep i '_' hm).2 rfl
    have hiu' : '_' ∉ natDecimalChars i' :=
      fun hm => (natDecimalChars_no_sep i' '_' hm).2 rfl
    obtain ⟨hI, hd⟩ := append_cons_inj hiu hiu' hd
    obtain ⟨hB, hJ⟩ := append_cons_inj hb hb' hd
    exact ⟨String.ext hA, natDecimalChars_injective _ _ hI,
      String.ext hB, natDecimalChars_injective _ _ hJ⟩
  · rintro ⟨rfl, rfl, rfl, rfl⟩
    rfl

/-- C6 witness: the characterization applied at concrete ids and indices. -/
theorem getEdgeId_deterministic_and_injective_witness :
    getEdgeId "n1" 1 "n2" 0 = getEdgeId "n1" 1 "n2" 0 ∧
      ("n1" : String) = "n1" := by
  have h := (getEdgeId_deterministic_and_injective "n1" "n2" "n1" "n2" 1 0 1 0
    (by decide) (by decide) (by decide) (by decide)).mpr ⟨rfl, rfl, rfl, rfl⟩
  exact ⟨h, rfl⟩

/-- C6 counterexample: injectivity fails for arbitrary node-id strings: the
tuples (x:1_y, 2, z, 3) and (x, 1, y:2_z, 3) differ in every string
component yet produce the same edge id. -/
theorem getEdgeId_not_injective_cex :
    getEdgeId "x:1_y" 2 "z" 3 = getEdgeId "x" 1 "y:2_z" 3 ∧
      ("x:1_y" : String) ≠ "x" ∧ (2 : Nat) ≠ 1 ∧ ("z" : String) ≠ "y:2_z" := by
  refine ⟨by decide, by decide, by decide, by decide⟩

/-! ### Lemmas about the snapshot-building folds -/

theorem foldl_setKey_getKey (f : EdgeProps → α) (k : String) (v : α) :
    ∀ (es : List EdgeProps) (acc : StrMap α),
      (∀ e ∈ es, e.id = k → f e = v) →
      ((∃ e ∈ es, e.id = k) ∨ getKey acc k = some v) →
      getKey (es.foldl (fun m e => setKey m e.id (f e)) acc) k = some v := by
  intro es
  induction es with
  | nil =>
    intro acc _ hex
    rcases hex with ⟨e, he, _⟩ | h
    · exact absurd he (List.not_mem_nil e)
    · simpa using h
  | cons x rest ih =>
    intro acc hall hex
    rw [List.foldl_cons]
    by_cases hx : x.id = k
    · refine ih (setKey acc x.id (f x))
        (fun e he hek => hall e (List.mem_cons_of_mem x he) hek) (Or.inr ?_)
      rw [hx, hall x (List.mem_cons_self x rest) hx]
      exact getKey_setKey_self acc k v
    · refine ih (setKey acc x.id (f x))
        (fun e he hek => hall e (List.mem_cons_of_mem x he) hek) ?_
      rcases hex with ⟨e, he, hek⟩ | hacc
      · rcases List.mem_cons.mp he with rfl | he'
        · exact absurd hek hx
        · exact Or.inl ⟨e, he', hek⟩
      · rw [getKey_setKey_of_ne acc k x.id (f x) hx]
        exact Or.inr hacc

/-- An edge references a missing node when one of the two finds fails. -/
def edgeDangling (ns : List NodeProps) (e : EdgeProps) : Prop :=
  ns.find? (fun node => node.id == e.sourceNode) = none ∨
  ns.find? (fun node => node.id == e.targetNode) = none

theorem edgePositionsStep_dangling (ns : List NodeProps)
    (acc : StrMap Vector × List String) (e : EdgeProps) (h : edgeDangling ns e) :
    edgePositionsStep ns acc e = (acc.1, acc.2 ++ [e.id]) := by
  rcases h with h | h
  · simp [edgePositionsStep, h]
  · cases hfs : ns.find? (fun node => node.id == e.sourceNode) with
    | none => simp [edgePositionsStep, hfs]
    | some s => simp [edgePositionsStep, hfs, h]

theorem posFold_warn_mono (ns : List NodeProps) :
    ∀ (es : List EdgeProps) (acc : StrMap Vector × List String) (w : String),
      w ∈ acc.2 → w ∈ (es.foldl (edgePositionsStep ns) acc).2 := by
  intro es
  induction es with
  | nil => intro acc w hw; simpa using hw
  | cons x rest ih =>
    intro acc w hw
    rw [List.foldl_cons]
    apply ih
    cases hfs : ns.find? (fun node => node.id == x.sourceNode) with
    | none => simp [edgePositionsStep, hfs, hw]
    | some s =>
      cases hft : ns.find? (fun node => node.id == x.targetNode) with
      | none => simp [edgePositionsStep, hfs, hft, hw]
      | some t => simpa [edgePositionsStep, hfs, hft] using hw

theorem posFold_warn_mem (ns : List NodeProps) :
    ∀ (es : List EdgeProps) (acc : StrMap Vector × List String) (e : EdgeProps),
      e ∈ es → edgeDangling ns e →
      e.id ∈ (es.foldl (edgePositionsStep ns) acc).2 := by
  intro es
  induction es with
  | nil => intro acc e he _; exact absurd he (List.not_mem_nil e)
  | cons x rest ih =>
    intro acc e he hd
    rw [List.foldl_cons]
    rcases List.mem_cons.mp he with rfl | he'
    · rw [edgePositionsStep_dangling ns acc e hd]
      exact posFold_warn_mono ns rest _ e.id (by simp)
    · exact ih _ e he' hd

theorem posFold_getKey_none (ns : List NodeProps) (k : String) :
    ∀ (es : List EdgeProps) (acc : StrMap Vector × List String),
      getKey acc.1 k = none →
      (∀ e ∈ es, e.id = k → edgeDangling ns e) →
      getKey (es.foldl (edgePositionsStep ns) acc).1 k = none := by
  intro es
  induction es with
  | nil => intro acc hacc _; simpa using hacc
  | cons x rest ih =>
    intro acc hacc hall
    rw [List.foldl_cons]
    by_cases hx : x.id = k
    · rw [edgePositionsStep_dangling ns acc x (hall x (List.mem_cons_self x rest) hx)]
      exact ih _ hacc (fun e he hek => hall e (List.mem_cons_of_mem x he) hek)
    · cases hfs : ns.find? (fun node => node.id == x.sourceNode) with
      | none =>
        rw [edgePositionsStep_dangling ns acc x (Or.inl hfs)]
        exact ih _ hacc (fun e he hek => hall e (List.mem_cons_of_mem x he) hek)
      | some s =>
        cases hft : ns.find? (fun node => node.id == x.targetNode) with
        | none =>
          rw [edgePositionsStep_dangling ns acc x (Or.inr hft)]
          exact ih _ hacc (fun e he hek => hall e (List.mem_cons_of_mem x he) hek)
        | some t =>
          refine ih _ ?_ (fun e he hek => hall e (List.mem_cons_of_mem x he) hek)
          have hstep : (edgePositionsStep ns acc x).1 = setKey acc.1 x.id
              { x0 := s.position.x + 200
                y0 := s.position.y - 10
                x1 := t.position.x
                y1 := t.position.y - 10 } := by
            simp [edgePositionsStep, hfs, hft]
          rw [hstep, getKey_setKey_of_ne acc.1 k x.id _ hx]
          exact hacc

theorem posFold_warn_ids (ns : List NodeProps) :
    ∀ (es : List EdgeProps) (acc : StrMap Vector × List String),
      ∀ w ∈ (es.foldl (edgePositionsStep ns) acc).2,
        w ∈ acc.2 ∨ ∃ e ∈ es, w = e.id := by
  intro es
  induction es with
  | nil => intro acc w hw; exact Or.inl (by simpa using hw)
  | cons x rest ih =>
    intro acc w hw
    rw [List.foldl_cons] at hw
    have step2 : (edgePositionsStep ns acc x).2 = acc.2 ∨
        (edgePositionsStep ns acc x).2 = acc.2 ++ [x.id] := by
      cases hfs : ns.find? (fun node => node.id == x.sourceNode) with
      | none => exact Or.inr (by simp [edgePositionsStep, hfs])
      | some s =>
        cases hft : ns.find? (fun node => node.id == x.targetNode) with
        | none => exact Or.inr (by simp [edgePositionsStep, hfs, hft])
        | some t => exact Or.inl (by simp [edgePositionsStep, hfs, hft])
    rcases ih (edgePositionsStep ns acc x) w hw with hin | ⟨e, he, hw'⟩
    · rcases step2 with hstep | hstep
      · rw [hstep] at hin
        exact Or.inl hin
      · rw [hstep] at hin
        rcases List.mem_append.mp hin with hin | hin
        · exact Or.inl hin
        · exact Or.inr ⟨x, List.mem_cons_self x rest, by simpa using hin⟩
    · exact Or.inr ⟨e, List.mem_cons_of_mem x he, hw'⟩

/-! ### Claims about convertToLayeredGraph -/

/-- C2 (amended): convertToLayeredGraph initializes the active flag of every
edge to false (edges become active later, on node mount). -/
theorem convert_edges_init_inactive (layout : String → Option Position)
    (ns : List NodeProps) (es : List EdgeProps) (e : EdgeProps) (he : e ∈ es) :
    getKey (convertToLayeredGraph layout ns es).initEdgesActives e.id =
      some false := by
  have hacts : (convertToLayeredGraph layout ns es).initEdgesActives =
      es.foldl (fun acc edge => setKey acc edge.id false) [] := rfl
  rw [hacts]
  exact foldl_setKey_getKey (fun _ => false) e.id false es []
    (fun _ _ _ => rfl) (Or.inl ⟨e, he, rfl⟩)

/-- C2 witness: a concrete edge is initialized inactive. -/
theorem convert_edges_init_inactive_witness :
    getKey (convertToLayeredGraph (fun _ => some { x := 0, y := 0 })
      [{ id := "a", position := { x := 0, y := 0 }, data := 0, inputs := 1,
         outputs := 1, color := none },
       { id := "b", position := { x := 0, y := 0 }, data := 0, inputs := 1,
         outputs := 1, color := none }]
      [{ id := "edge_a:0_b:0", sourceNode := "a", targetNode := "b",
         sourceOutput := 0, targetInput := 0 }]).initEdgesActives
      "edge_a:0_b:0" = some false := by
  exact convert_edges_init_inactive _ _ _
    { id := "edge_a:0_b:0", sourceNode := "a", targetNode := "b",
      sourceOutput := 0, targetInput := 0 } (by decide)

/-- C2 counterexample: the snapshot initializes a concrete edge with
active = false, not active = true as claimed. -/
theorem convert_edges_init_active_cex :
    getKey (convertToLayeredGraph (fun _ => some { x := 0, y := 0 })
      [{ id := "a", position := { x := 0, y := 0 }, data := 0, inputs := 1,
         outputs := 1, color := none },
       { id := "b", position := { x := 0, y := 0 }, data := 0, inputs := 1,
         outputs := 1, color := none }]
      [{ id := "edge_a:0_b:0", sourceNode := "a", targetNode := "b",
         sourceOutput := 0, targetInput := 0 }]).initEdgesActives
      "edge_a:0_b:0" ≠ some true := by decide

/-- C4: the provisional port offsets computed at snapshot build are not
offsets from the node top-left corner: they include the node's host-supplied
position.  For a node at (5, 7) with one input and one output the code
produces input offset (5, 7) and output offset (205, 7) where the claim
requires (0, 0) and (200, 0). -/
theorem convert_offsets_include_node_position :
    (convertToLayeredGraph (fun _ => some { x := 0, y := 0 })
      [{ id := "a", position := { x := 5, y := 7 }, data := 0, inputs := 1,
         outputs := 1, color := none }] []).initNodesOffsets =
      [{ inputs := [{ offset := { x := 5, y := 7 } }]
         outputs := [{ offset := { x := 205, y := 7 } }] }] ∧
      ({ x := 5, y := 7 } : Position) ≠ { x := 0, y := 0 } ∧
      ({ x := 205, y := 7 } : Position) ≠ { x := 200, y := 0 } := by
  refine ⟨by decide, by decide, by decide⟩

/-- C5 (amended): when the layout yields no position for a node,
convertToLayeredGraph records exactly that undefined value for the node, with
no fallback to the origin; warnings only ever concern edge ids, so no
warning is surfaced for a layout failure. -/
theorem convert_layout_missing_no_fallback (layout : String → Option Position)
    (ns : List NodeProps) (es : List EdgeProps) (i : Nat) (h : i < ns.length)
    (hmiss : layout (ns.get ⟨i, h⟩).id = none) :
    (convertToLayeredGraph layout ns es).initNodesPositions.get? i =
      some none ∧
    ∀ w ∈ (convertToLayeredGraph layout ns es).warnings, ∃ e ∈ es, w = e.id := by
  constructor
  · have hpos : (convertToLayeredGraph layout ns es).initNodesPositions =
        ns.map (fun node => layout node.id) := rfl
    rw [hpos, List.get?_map, List.get?_eq_get h, Option.map_some', hmiss]
  · intro w hw
    have hwarn : (convertToLayeredGraph layout ns es).warnings =
        (es.foldl (edgePositionsStep ns) ([], [])).2 := rfl
    rw [hwarn] at hw
    rcases posFold_warn_ids ns es ([], []) w hw with hin | hex
    · exact absurd hin (List.not_mem_nil w)
    · exact hex

/-- C5 witness: a layout returning nothing for the only node leads to an
undefined recorded position and no warning at all. -/
theorem convert_layout_missing_no_fallback_witness :
    (convertToLayeredGraph (fun _ => none)
      [{ id := "a", position := { x := 0, y := 0 }, data := 0, inputs := 1,
         outputs := 1, color := none }] []).initNodesPositions.get? 0 =
      some none := by
  exact (convert_layout_missing_no_fallback (fun _ => none)
    [{ id := "a", position := { x := 0, y := 0 }, data := 0, inputs := 1,
       outputs := 1, color := none }] [] 0 (by decide) rfl).1

/-- C5 counterexample: no {x:0, y:0} fallback position is assigned and no
warning is surfaced when the layout yields no position for a node. -/
theorem convert_layout_failure_cex :
    (convertToLayeredGraph (fun _ => none)
      [{ id := "a", position := { x := 0, y := 0 }, data := 0, inputs := 1,
         outputs := 1, color := none }] []).initNodesPositions = [none] ∧
    (convertToLayeredGraph (fun _ => none)
      [{ id := "a", position := { x := 0, y := 0 }, data := 0, inputs := 1,
         outputs := 1, color := none }] []).warnings = [] ∧
    ([none] : List (Option Position)) ≠ [some { x := 0, y := 0 }] := by
  refine ⟨rfl, rfl, by decide⟩

/-- C7: an edge referencing a missing node gets no entry in the endpoint
positions map, a warning is logged for it, and it is still recorded both in
the edge-endpoint-reference map and in the adjacency of whichever endpoint
nodes do exist. -/
theorem convert_dangling_edge_handling (layout : String → Option Position)
    (ns : List NodeProps) (es : List EdgeProps) (e : EdgeProps) (he : e ∈ es)
    (hd : edgeDangling ns e) (huniq : ∀ e' ∈ es, e'.id = e.id → e' = e) :
    getKey (convertToLayeredGraph layout ns es).initEdgesPositions e.id = none ∧
    e.id ∈ (convertToLayeredGraph layout ns es).warnings ∧
    getKey (convertToLayeredGraph layout ns es).initEdgesNodes e.id =
      some { outNodeId := e.sourceNode, outputIndex := e.sourceOutput,
             inNodeId := e.targetNode, inputIndex := e.targetInput } ∧
    ∀ nd ∈ (convertToLayeredGraph layout ns es).initNodesData,
      (nd.id = e.sourceNode → e.id ∈ nd.edgesOut) ∧
      (nd.id = e.targetNode → e.id ∈ nd.edgesIn) := by
  refine ⟨?_, ?_, ?_, ?_⟩
  · have hpos : (convertToLayeredGraph layout ns es).initEdgesPositions =
        (es.foldl (edgePositionsStep ns) ([], [])).1 := rfl
    rw [hpos]
    refine posFold_getKey_none ns e.id es ([], []) rfl ?_
    intro e' he' hek
    rw [huniq e' he' hek]
    exact hd
  · have hwarn : (convertToLayeredGraph layout ns es).warnings =
        (es.foldl (edgePositionsStep ns) ([], [])).2 := rfl
    rw [hwarn]
    exact posFold_warn_mem ns es ([], []) e he hd
  · have hnodes : (convertToLayeredGraph layout ns es).initEdgesNodes =
        es.foldl (fun acc edge => setKey acc edge.id
          { outNodeId := edge.sourceNode, outputIndex := edge.sourceOutput,
            inNodeId := edge.targetNode, inputIndex := edge.targetInput }) [] := rfl
    rw [hnodes]
    refine foldl_setKey_getKey _ e.id _ es [] ?_ (Or.inl ⟨e, he, rfl⟩)
    intro e' he' hek
    rw [huniq e' he' hek]
  · intro nd hnd
    have hdata : (convertToLayeredGraph layout ns es).initNodesData =
        ns.map (fun node =>
          { id := node.id
            data := node.data
            inputs := node.inputs
            outputs := node.outputs
            color := node.color.getD "white"
            edgesIn := (es.filter
              (fun edge => edge.targetNode == node.id)).map (fun edge => edge.id)
            edgesOut := (es.filter
              (fun edge => edge.sourceNode == node.id)).map (fun edge => edge.id) }) := rfl
    rw [hdata] at hnd
    obtain ⟨n, hn, rfl⟩ := List.mem_map.mp hnd
    constructor
    · intro hid
      refine List.mem_map.mpr ⟨e, List.mem_filter.mpr ⟨he, ?_⟩, rfl⟩
      simpa using hid.symm
    · intro hid
      refine List.mem_map.mpr ⟨e, List.mem_filter.mpr ⟨he, ?_⟩, rfl⟩
      simpa using hid.symm

/-- C7 witness: a concrete edge from a to a missing node c is omitted from
the positions map, warned about, and kept in the adjacency of a. -/
theorem convert_dangling_edge_handling_witness :
    getKey (convertToLayeredGraph (fun _ => some { x := 0, y := 0 })
      [{ id := "a", position := { x := 0, y := 0 }, data := 0, inputs := 1,
         outputs := 1, color := none }]
      [{ id := "edge_a:0_c:0", sourceNode := "a", targetNode := "c",
         sourceOutput := 0, targetInput := 0 }]).initEdgesPositions
      "edge_a:0_c:0" = none ∧
    "edge_a:0_c:0" ∈ (convertToLayeredGraph (fun _ => some { x := 0, y := 0 })
      [{ id := "a", position := { x := 0, y := 0 }, data := 0, inputs := 1,
         outputs := 1, color := none }]
      [{ id := "edge_a:0_c:0", sourceNode := "a", targetNode := "c",
         sourceOutput := 0, targetInput := 0 }]).warnings := by
  have h := convert_dangling_edge_handling (fun _ => some { x := 0, y := 0 })
    [{ id := "a", position := { x := 0, y := 0 }, data := 0, inputs := 1,
       outputs := 1, color := none }]
    [{ id := "edge_a:0_c:0", sourceNode := "a", targetNode := "c",
       sourceOutput := 0, targetInput := 0 }]
    { id := "edge_a:0_c:0", sourceNode := "a", targetNode := "c",
      sourceOutput := 0, targetInput := 0 }
    (by decide) (Or.inr (by decide))
    (by decide)
  exact ⟨h.1, h.2.1⟩

/-! ### Claims about the reconciliation effect and the gesture handlers -/

/-- Number of edges whose active flag is set, as reported to the host. -/
def countActiveEdges (m : StrMap Bool) : Nat :=
  (m.filter (fun p => p.2)).length

/-- C3: when the host node count equals the engine's node count and the edges
collection is the same reference (same identity token), the reconciliation
effect changes nothing: the whole state, in particular every node position
and every edge endpoint segment, is returned unchanged, for any node
payloads. -/
theorem reconcile_content_only_noop (layout : String → Option Position)
    (propsNodes : List NodeProps) (propsEdges : List EdgeProps)
    (propsEdgesRef prevEdgesRef : Nat) (st : State)
    (hlen : propsNodes.length = st.nodesData.length)
    (href : propsEdgesRef = prevEdgesRef) :
    reconcileEffect layout propsNodes propsEdges propsEdgesRef prevEdgesRef st =
      (st, prevEdgesRef) ∧
    (reconcileEffect layout propsNodes propsEdges propsEdgesRef
      prevEdgesRef st).1.nodesPositions = st.nodesPositions ∧
    (reconcileEffect layout propsNodes propsEdges propsEdgesRef
      prevEdgesRef st).1.edgesPositions = st.edgesPositions := by
  have hcond : (propsNodes.length != st.nodesData.length ||
      propsEdgesRef != prevEdgesRef) = false := by
    simp [hlen, href]
  refine ⟨?_, ?_, ?_⟩ <;> simp [reconcileEffect, hcond]

/-- An engine state holding two connected nodes a and b, used as the concrete
input of several witnesses. -/
def exState : State :=
  { edgesNodes := [("edge_a:0_b:0",
      { outNodeId := "a", outputIndex := 0, inNodeId := "b", inputIndex := 0 })]
    edgesPositions := [("edge_a:0_b:0",
      { x0 := 200, y0 := -10, x1 := 400, y1 := -10 })]
    edgesActives := [("edge_a:0_b:0", true)]
    nodesPositions := [some { x := 0, y := 0 }, some { x := 400, y := 0 }]
    nodesData :=
      [{ id := "a", data := 0, inputs := 0, outputs := 1, color := "white",
         edgesIn := [], edgesOut := ["edge_a:0_b:0"] },
       { id := "b", data := 0, inputs := 1, outputs := 0, color := "white",
         edgesIn := ["edge_a:0_b:0"], edgesOut := [] }]
    nodesOffsets :=
      [{ inputs := [], outputs := [{ offset := { x := 200, y := 0 } }] },
       { inputs := [{ offset := { x := 0, y := 0 } }], outputs := [] }]
    clickedDelta := { x := 0, y := 0 }
    newEdge := none }

/-- C3 witness: with two nodes whose payloads changed (data 9 instead of 0),
an equal node count and the same edges reference token, reconciliation
returns the state unchanged. -/
theorem reconcile_content_only_noop_witness :
    reconcileEffect (fun _ => none)
      [{ id := "a", position := { x := 0, y := 0 }, data := 9, inputs := 0,
         outputs := 1, color := none },
       { id := "b", position := { x := 0, y := 0 }, data := 9, inputs := 1,
         outputs := 0, color := none }]
      [] 5 5 exState = (exState, 5) := by
  exact (reconcile_content_only_noop (fun _ => none) _ [] 5 5 exState
    (by decide) rfl).1

/-- C9: deleting a node reports an edge list containing no edge incident on
the deleted node (and keeping every other edge) and a node list without the
deleted node, with the edges-changed call strictly before the nodes-changed
call. -/
theorem nodeDelete_cascade (propsNodes : List NodeProps)
    (propsEdges : List EdgeProps) (nodeId : String) :
    ∃ es ns, handleOnNodeDelete propsNodes propsEdges nodeId =
        [HostCall.edgesChange es, HostCall.nodesChange ns] ∧
      (∀ e ∈ es, e.sourceNode ≠ nodeId ∧ e.targetNode ≠ nodeId) ∧
      (∀ e ∈ propsEdges, e.sourceNode ≠ nodeId → e.targetNode ≠ nodeId → e ∈ es) ∧
      (∀ n ∈ ns, n.id ≠ nodeId) ∧
      (∀ n ∈ propsNodes, n.id ≠ nodeId → n ∈ ns) := by
  refine ⟨_, _, rfl, ?_, ?_, ?_, ?_⟩
  · intro e he
    have h := (List.mem_filter.mp he).2
    simp only [Bool.and_eq_true, bne_iff_ne] at h
    exact h
  · intro e he hs ht
    exact List.mem_filter.mpr ⟨he, by simp [bne_iff_ne, hs, ht]⟩
  · intro n hn
    have h := (List.mem_filter.mp hn).2
    simpa [bne_iff_ne] using h
  · intro n hn hid
    exact List.mem_filter.mpr ⟨hn, by simp [bne_iff_ne, hid]⟩

/-- C10: with no pending edge, an input-port release is a pure no-op (state
unchanged, no host callback) whenever the released node index is in range,
and the handler crashes by dereferencing the node at ordinal zero before its
pending-edge guard when the node list is empty. -/
theorem inputMouseUp_no_pending (st : State) (nodeIndex inputIndex : Nat) :
    (st.newEdge = none → nodeIndex < st.nodesData.length →
      handleOnInputMouseUp st nodeIndex inputIndex = some (st, [])) ∧
    (st.newEdge = none → st.nodesData = [] →
      handleOnInputMouseUp st nodeIndex inputIndex = none) := by
  constructor
  · intro h1 h2
    have h0 : 0 < st.nodesData.length := Nat.lt_of_le_of_lt (Nat.zero_le _) h2
    have hd0 := List.getElem?_eq_getElem h0
    have hdt := List.getElem?_eq_getElem h2
    simp [handleOnInputMouseUp, h1, hd0, hdt]
  · intro h1 h2
    simp [handleOnInputMouseUp, h1, h2]

/-- C10 witness: the no-op at a concrete two-node state with no pending
edge, and the crash at the empty state. -/
theorem inputMouseUp_no_pending_witness :
    handleOnInputMouseUp exState 1 0 = some (exState, []) ∧
    handleOnInputMouseUp
      { edgesNodes := [], edgesPositions := [], edgesActives := []
        nodesPositions := [], nodesData := [], nodesOffsets := []
        clickedDelta := { x := 0, y := 0 }, newEdge := none } 0 0 = none := by
  constructor
  · exact (inputMouseUp_no_pending exState 1 0).1 rfl (by decide)
  · exact (inputMouseUp_no_pending _ 0 0).2 rfl rfl

/-- C1 (amended): when the pending edge's computed id already occurs in the
source node's edgesOut or the target node's edgesIn, handleOnInputMouseUp
creates no duplicate and removes nothing: the only state change is clearing
the pending edge, no host callback is made, and the adjacency, active-edge
map and active-edge count are untouched. -/
theorem inputMouseUp_existing_edge_noop (st : State) (ne : PendingEdge)
    (nodeIndex inputIndex : Nat) (srcData tgtData : NodeData)
    (hne : st.newEdge = some ne)
    (hdiff : ne.sourceNode ≠ nodeIndex)
    (hsd : st.nodesData.get? ne.sourceNode = some srcData)
    (htd : st.nodesData.get? nodeIndex = some tgtData)
    (hdup : getEdgeId srcData.id ne.sourceOutput tgtData.id inputIndex ∈
        srcData.edgesOut ∨
      getEdgeId srcData.id ne.sourceOutput tgtData.id inputIndex ∈
        tgtData.edgesIn) :
    handleOnInputMouseUp st nodeIndex inputIndex =
      some ({ st with newEdge := none }, []) ∧
    ({ st with newEdge := none } : State).edgesActives = st.edgesActives ∧
    ({ st with newEdge := none } : State).nodesData = st.nodesData ∧
    countActiveEdges ({ st with newEdge := none } : State).edgesActives =
      countActiveEdges st.edgesActives := by
  refine ⟨?_, rfl, rfl, rfl⟩
  rw [List.get?_eq_getElem?] at hsd htd
  rcases hdup with h | h <;>
    simp [handleOnInputMouseUp, hne, hdiff, hsd, htd, h]

/-- An engine state in which the user is drawing a pending edge from output
(a, 0) while the edge from (a, 0) to (b, 0) already exists and is active. -/
def exToggleState : State :=
  { edgesNodes := [("edge_a:0_b:0",
      { outNodeId := "a", outputIndex := 0, inNodeId := "b", inputIndex := 0 })]
    edgesPositions := [("edge_a:0_b:0",
      { x0 := 200, y0 := -10, x1 := 400, y1 := -10 })]
    edgesActives := [("edge_a:0_b:0", true)]
    nodesPositions := [some { x := 0, y := 0 }, some { x := 400, y := 0 }]
    nodesData :=
      [{ id := "a", data := 0, inputs := 0, outputs := 1, color := "white",
         edgesIn := [], edgesOut := ["edge_a:0_b:0"] },
       { id := "b", data := 0, inputs := 1, outputs := 0, color := "white",
         edgesIn := ["edge_a:0_b:0"], edgesOut := [] }]
    nodesOffsets :=
      [{ inputs := [], outputs := [{ offset := { x := 200, y := 0 } }] },
       { inputs := [{ offset := { x := 0, y := 0 } }], outputs := [] }]
    clickedDelta := { x := 0, y := 0 }
    newEdge := some { position := { x0 := 200, y0 := 0, x1 := 200, y1 := 0 },
                      sourceNode := 0, sourceOutput := 0 } }

/-- C1 witness: releasing on input (b, 0) while drawing from output (a, 0)
with edge_a:0_b:0 already present only clears the pending edge. -/
theorem inputMouseUp_existing_edge_noop_witness :
    handleOnInputMouseUp exToggleState 1 0 =
      some ({ exToggleState with newEdge := none }, []) := by
  exact (inputMouseUp_existing_edge_noop exToggleState
    { position := { x0 := 200, y0 := 0, x1 := 200, y1 := 0 },
      sourceNode := 0, sourceOutput := 0 }
    1 0
    { id := "a", data := 0, inputs := 0, outputs := 1, color := "white",
      edgesIn := [], edgesOut := ["edge_a:0_b:0"] }
    { id := "b", data := 0, inputs := 1, outputs := 0, color := "white",
      edgesIn := ["edge_a:0_b:0"], edgesOut := [] }
    rfl (by decide) rfl rfl (Or.inl (by decide))).1

/-- C1 counterexample: at a state where edge_a:0_b:0 exists and is active,
releasing the pending edge drawn from (a, 0) onto input (b, 0) does not
remove the edge: the active-edge count stays 1 instead of decreasing by one,
the adjacency still holds the edge id, and no host callback reports a
removal. -/
theorem inputMouseUp_toggle_cex :
    handleOnInputMouseUp exToggleState 1 0 =
      some ({ exToggleState with newEdge := none }, []) ∧
    countActiveEdges ({ exToggleState with newEdge := none } : State).edgesActives = 1 ∧
    countActiveEdges exToggleState.edgesActives = 1 ∧
    getKey ({ exToggleState with newEdge := none } : State).edgesActives
      "edge_a:0_b:0" = some true ∧
    "edge_a:0_b:0" ∈
      (({ exToggleState with newEdge := none } : State).nodesData.map
        NodeData.edgesOut).join := by
  refine ⟨by decide, by decide, by decide, by decide, by decide⟩

/-! ### Activity of reported edge lists -/

theorem getD_false_eq_some_true (o : Option Bool) (h : o.getD false = true) :
    o = some true := by
  cases o with
  | none => simp at h
  | some b => cases b with
    | false => simp at h
    | true => rfl

theorem mem_buildActiveEdgesSkip (actives : StrMap Bool) (ends : StrMap EdgeEnds)
    (e : EdgeProps) (he : e ∈ buildActiveEdgesSkip actives ends) :
    getKey actives e.id = some true := by
  obtain ⟨k, _, hfk⟩ := List.mem_filterMap.mp he
  by_cases hc : (getKey actives k).getD false = true
  · rw [if_pos hc] at hfk
    cases hends : getKey ends k with
    | none => rw [hends] at hfk; exact absurd hfk (by simp)
    | some info =>
      rw [hends] at hfk
      obtain rfl := Option.some.inj hfk
      exact getD_false_eq_some_true _ hc
  · rw [if_neg hc] at hfk
    exact absurd hfk (by simp)

theorem mem_buildActiveEdgesStrictAux (actives : StrMap Bool)
    (ends : StrMap EdgeEnds) :
    ∀ (ks : List String) (L : List EdgeProps),
      buildActiveEdgesStrictAux actives ends ks = some L →
      ∀ e ∈ L, getKey actives e.id = some true := by
  intro ks
  induction ks with
  | nil =>
    intro L hL e he
    obtain rfl : ([] : List EdgeProps) = L := Option.some.inj hL
    exact absurd he (List.not_mem_nil e)
  | cons k rest ih =>
    intro L hL e he
    rw [buildActiveEdgesStrictAux] at hL
    by_cases hc : (getKey actives k).getD false = true
    · rw [if_pos hc] at hL
      cases hends : getKey ends k with
      | none => rw [hends] at hL; exact absurd hL (by simp)
      | some info =>
        rw [hends] at hL
        obtain ⟨L', hL', rfl⟩ := Option.map_eq_some'.mp hL
        rcases List.mem_cons.mp he with rfl | he'
        · exact getD_false_eq_some_true _ hc
        · exact ih L' hL' e he'
    · rw [if_neg hc] at hL
      exact ih L hL e he

theorem mem_buildActiveEdgesStrict (actives : StrMap Bool)
    (ends : StrMap EdgeEnds) (L : List EdgeProps)
    (hL : buildActiveEdgesStrict actives ends = some L) :
    ∀ e ∈ L, getKey actives e.id = some true :=
  mem_buildActiveEdgesStrictAux actives ends (mapKeys actives) L hL

theorem deleteEdge_calls_inv (st : State) (edgeId : String) (st2 : State)
    (calls : List HostCall)
    (h : handleOnDeleteEdge st edgeId = some (st2, calls)) :
    ∃ L, calls = [HostCall.edgesChange L] ∧
      buildActiveEdgesStrict st2.edgesActives st.edgesNodes = some L := by
  simp only [handleOnDeleteEdge, bind, Option.bind_eq_some, Option.some.injEq,
    Prod.mk.injEq] at h
  obtain ⟨ends, hends, ti, hti, si, hsi, L, hL, hst2, hcalls⟩ := h
  refine ⟨L, hcalls.symm, ?_⟩
  rw [← hst2]
  exact hL

theorem inputMouseUp_calls_inv (st : State) (ni ii : Nat) (st2 : State)
    (calls : List HostCall)
    (h : handleOnInputMouseUp st ni ii = some (st2, calls)) :
    calls = [] ∨ ∃ M, calls =
      [HostCall.edgesChange (buildActiveEdgesSkip st2.edgesActives M)] := by
  unfold handleOnInputMouseUp at h
  split at h
  · exact Or.inl (by cases h; rfl)
  · simp only [bind, Option.bind_eq_some] at h
    obtain ⟨srcData, hsrc, tgtData, htgt, h⟩ := h
    cases hne : st.newEdge with
    | none =>
      rw [hne] at h
      simp only [Option.some.injEq, Prod.mk.injEq] at h
      exact Or.inl h.2.symm
    | some ne =>
      rw [hne] at h
      dsimp only at h
      split at h
      · simp only [Option.some.injEq, Prod.mk.injEq] at h
        exact Or.inl h.2.symm
      · simp only [bind, Option.bind_eq_some, Option.some.injEq,
          Prod.mk.injEq] at h
        obtain ⟨p1, h1, o1, h2, oo1, h3, p2, h4, o2, h5, io2, h6, hst2, hcalls⟩ := h
        refine Or.inr ⟨setKey (setKey st.edgesNodes
            (getEdgeId srcData.id ne.sourceOutput tgtData.id ii)
            { outNodeId := srcData.id, outputIndex := ne.sourceOutput,
              inNodeId := tgtData.id, inputIndex := ii })
            (getEdgeId srcData.id ne.sourceOutput tgtData.id ii)
            { outNodeId := srcData.id, outputIndex := ne.sourceOutput,
              inNodeId := tgtData.id, inputIndex := ii }, ?_⟩
        rw [← hst2]
        exact hcalls.symm

/-- C8 (amended): the edge lists reported to the host by edge creation
(handleOnInputMouseUp) and by edge deletion (handleOnDeleteEdge) contain only
edges whose active flag is true at the time of the call.  The node-deletion
path is exempt: it reports the host-supplied edge list filtered only by
incidence, regardless of the engine's active flags. -/
theorem reported_edge_lists_active (st st2 : State) (ni ii : Nat)
    (eid : String) (calls : List HostCall) (L : List EdgeProps) :
    (handleOnInputMouseUp st ni ii = some (st2, calls) →
      HostCall.edgesChange L ∈ calls →
      ∀ e ∈ L, getKey st2.edgesActives e.id = some true) ∧
    (handleOnDeleteEdge st eid = some (st2, calls) →
      HostCall.edgesChange L ∈ calls →
      ∀ e ∈ L, getKey st2.edgesActives e.id = some true) := by
  constructor
  · intro h hm e heL
    rcases inputMouseUp_calls_inv st ni ii st2 calls h with rfl | ⟨M, rfl⟩
    · exact absurd hm (List.not_mem_nil _)
    · have hLb : L = buildActiveEdgesSkip st2.edgesActives M :=
        HostCall.edgesChange.inj (List.mem_singleton.mp hm)
      rw [hLb] at heL
      exact mem_buildActiveEdgesSkip _ _ e heL
  · intro h hm e heL
    obtain ⟨L', hcalls, hbuild⟩ := deleteEdge_calls_inv st eid st2 calls h
    subst hcalls
    have hLb : L = L' := HostCall.edgesChange.inj (List.mem_singleton.mp hm)
    rw [hLb] at heL
    exact mem_buildActiveEdgesStrict _ _ L' hbuild e heL

/-- Engine state with two active edges between nodes a and b. -/
def exTwoEdgeState : State :=
  { edgesNodes :=
      [("edge_a:0_b:0",
        { outNodeId := "a", outputIndex := 0, inNodeId := "b", inputIndex := 0 }),
       ("edge_a:1_b:1",
        { outNodeId := "a", outputIndex := 1, inNodeId := "b", inputIndex := 1 })]
    edgesPositions :=
      [("edge_a:0_b:0", { x0 := 200, y0 := -10, x1 := 400, y1 := -10 }),
       ("edge_a:1_b:1", { x0 := 200, y0 := 10, x1 := 400, y1 := 10 })]
    edgesActives := [("edge_a:0_b:0", true), ("edge_a:1_b:1", true)]
    nodesPositions := [some { x := 0, y := 0 }, some { x := 400, y := 0 }]
    nodesData :=
      [{ id := "a", data := 0, inputs := 0, outputs := 2, color := "white",
         edgesIn := [], edgesOut := ["edge_a:0_b:0", "edge_a:1_b:1"] },
       { id := "b", data := 0, inputs := 2, outputs := 0, color := "white",
         edgesIn := ["edge_a:0_b:0", "edge_a:1_b:1"], edgesOut := [] }]
    nodesOffsets :=
      [{ inputs := [],
         outputs := [{ offset := { x := 200, y := -10 } },
                     { offset := { x := 200, y := 10 } }] },
       { inputs := [{ offset := { x := 0, y := -10 } },
                    { offset := { x := 0, y := 10 } }], outputs := [] }]
    clickedDelta := { x := 0, y := 0 }
    newEdge := none }

/-- The state reached from exTwoEdgeState by deleting edge_a:0_b:0. -/
def exTwoEdgeStateAfter : State :=
  { exTwoEdgeState with
      nodesData :=
        [{ id := "a", data := 0, inputs := 0, outputs := 2, color := "white",
           edgesIn := [], edgesOut := ["edge_a:1_b:1"] },
         { id := "b", data := 0, inputs := 2, outputs := 0, color := "white",
           edgesIn := ["edge_a:1_b:1"], edgesOut := [] }]
      edgesActives := [("edge_a:0_b:0", false), ("edge_a:1_b:1", true)] }

/-- The edge from output (a, 1) to input (b, 1), as reported to the host. -/
def exEdgeA1B1 : EdgeProps :=
  { id := "edge_a:1_b:1", sourceNode := "a", targetNode := "b",
    sourceOutput := 1, targetInput := 1 }

/-- C8 witness: after deleting edge_a:0_b:0, the reported list holds only
edge_a:1_b:1, and the theorem yields that it is active in the new state. -/
theorem reported_edge_lists_active_witness :
    getKey exTwoEdgeStateAfter.edgesActives "edge_a:1_b:1" = some true := by
  have h := (reported_edge_lists_active exTwoEdgeState exTwoEdgeStateAfter 0 0
    "edge_a:0_b:0" [HostCall.edgesChange [exEdgeA1B1]] [exEdgeA1B1]).2
    (by decide) (by decide)
  exact h exEdgeA1B1 (by decide)

/-- Host props with three nodes a, b, c and one edge from a to b. -/
def exPropsNodes : List NodeProps :=
  [{ id := "a", position := { x := 0, y := 0 }, data := 0, inputs := 0,
     outputs := 1, color := none },
   { id := "b", position := { x := 0, y := 100 }, data := 0, inputs := 1,
     outputs := 0, color := none },
   { id := "c", position := { x := 0, y := 200 }, data := 0, inputs := 0,
     outputs := 0, color := none }]

/-- The single host edge from output (a, 0) to input (b, 0). -/
def exPropsEdges : List EdgeProps :=
  [{ id := "edge_a:0_b:0", sourceNode := "a", targetNode := "b",
     sourceOutput := 0, targetInput := 0 }]

/-- The engine state right after reconciling exPropsNodes and exPropsEdges,
before any node has mounted: every edge is still inactive. -/
def exFreshState : State :=
  stateFromSnapshot
    (convertToLayeredGraph (fun _ => some { x := 0, y := 0 })
      exPropsNodes exPropsEdges)
    { edgesNodes := [], edgesPositions := [], edgesActives := []
      nodesPositions := [], nodesData := [], nodesOffsets := []
      clickedDelta := { x := 0, y := 0 }, newEdge := none }

/-- C8 counterexample: in the freshly reconciled state the edge a to b is
inactive, yet deleting the unrelated node c reports an edge list that
contains it: the node-deletion path surfaces an engine-inactive edge to the
host. -/
theorem nodeDelete_reports_inactive_cex :
    getKey exFreshState.edgesActives "edge_a:0_b:0" = some false ∧
    handleOnNodeDelete exPropsNodes exPropsEdges "c" =
      [HostCall.edgesChange exPropsEdges,
       HostCall.nodesChange (exPropsNodes.take 2)] := by
  refine ⟨by decide, by decide⟩
